import Mathlib

/-!
Verification of the Hyperspecter laser-scanning core against its
natural-language specification.

The Python source (`hyperspecter/utils.py`, `hyperspecter/microscope_controller.py`,
`hyperspecter/hyperspecter_app.py`) is shallowly embedded below.  Numpy arrays
become Lean lists; Python machine floats are idealised as exact rationals for
the geometry arithmetic (`int(resolution / fill_fraction)` and friends) and as
real numbers for the voltage samples (the flyback segment uses the real cosine).
Fallible Python code (code that can raise at runtime) is embedded as functions
into `Except PyErr`, with one constructor for each runtime error the traced
code can actually produce.
-/

namespace HS

/-- Runtime errors the embedded Python code can raise.  The source defines no
dedicated error types (no `InvalidGeometry`, no `ShapeMismatch`); the only
failures are ordinary Python/numpy runtime errors. -/
inductive PyErr where
  | zeroDivisionError
  | valueError
  | assertionError
  | indexError
  deriving DecidableEq

/-- Scan pattern selector, source strings `'sawtooth'` and `'bidirectional'`
in `MicroscopeController`. -/
inductive ScanPattern where
  | sawtooth
  | bidirectional
  deriving DecidableEq

/-- Python `int()` applied to an exact rational: truncation toward zero. -/
def pyInt (q : ℚ) : ℤ :=
  if 0 ≤ q then ⌊q⌋ else -⌊-q⌋

/-- Elementwise `np.clip(v, lo, hi)` on a real sample. -/
def npClip (v lo hi : ℝ) : ℝ :=
  min (max v lo) hi

/-- Elementwise `np.clip` on a rational value (used by `scale_min_max`). -/
def npClipQ (v lo hi : ℚ) : ℚ :=
  min (max v lo) hi

/-- Embedding of `np.linspace(-1, 1, n)`: `n` evenly spaced rationals from
`-1` to `1`.  For `n = 1` numpy returns `[-1]`, which the formula also gives
since division by zero is zero in `ℚ`. -/
def linspace (n : ℕ) : List ℚ :=
  (List.range n).map (fun i : ℕ => -1 + 2 * (i : ℚ) / ((n : ℚ) - 1))

/-- Embedding of `np.repeat(l, s)`: each element repeated `s` times. -/
def npRepeat (l : List α) (s : ℕ) : List α :=
  (l.map (List.replicate s)).flatten

/-- Embedding of `np.tile(l, n)`: `n` copies of `l` concatenated. -/
def npTile (l : List α) (n : ℕ) : List α :=
  (List.replicate n l).flatten

/-- Source `utils.sawtooth(pixels, samples_per_pixel, number_of_lines)`:
`number_of_lines` linear ramps with `pixels` values between `-1` and `1`,
each value repeated `samples_per_pixel` times. -/
def sawtooth (pixels : ℕ) (samples_per_pixel : ℕ) (number_of_lines : ℕ) : List ℚ :=
  npTile (npRepeat (linspace pixels) samples_per_pixel) number_of_lines

/-- Python `range(a, b, s)` for a positive step `s`, as a list of naturals. -/
def pyRange (a b s : ℕ) : List ℕ :=
  (List.range ((b - a + s - 1) / s)).map (fun i => a + i * s)

/-- In-place slice reversal `l[s:e] = np.flip(l[s:e])` on a list. -/
def sliceReverse (l : List α) (s e : ℕ) : List α :=
  l.take s ++ ((l.drop s).take (e - s)).reverse ++ l.drop e

/-- Source `utils.triangle`: the sawtooth wave with every other linear ramp
(slices of width `pixels * samples_per_pixel` at odd line indices) reversed
in place. -/
def triangle (pixels : ℕ) (samples_per_pixel : ℕ) (number_of_lines : ℕ) : List ℚ :=
  let width := pixels * samples_per_pixel
  (pyRange 1 number_of_lines 2).foldl
    (fun result i => sliceReverse result (i * width) (i * width + width))
    (sawtooth pixels samples_per_pixel number_of_lines)

/-! Timing-plan arithmetic, straight from the first lines of
`generate_sawtooth_scan` and `generate_bidirectional_scan`. -/

/-- Source `total_scan = int(resolution[0] / fill_fraction)`. -/
def totalScan (resolution_x : ℕ) (fill_fraction : ℚ) : ℤ :=
  pyInt ((resolution_x : ℚ) / fill_fraction)

/-- Source (sawtooth) `throwaway = total_scan - resolution[0]`. -/
def sawtoothThrowaway (resolution_x : ℕ) (fill_fraction : ℚ) : ℤ :=
  totalScan resolution_x fill_fraction - resolution_x

/-- Source (sawtooth) `samples_per_line = total_scan + flyback`. -/
def sawtoothSamplesPerLine (resolution_x : ℕ) (fill_fraction : ℚ) (flyback : ℕ) : ℤ :=
  totalScan resolution_x fill_fraction + flyback

/-- Source (bidirectional) `throwaway = int(0.5*(total_scan - resolution[0]))`. -/
def bidiThrowaway (resolution_x : ℕ) (fill_fraction : ℚ) : ℤ :=
  pyInt ((1/2 : ℚ) * ((totalScan resolution_x fill_fraction : ℚ) - (resolution_x : ℚ)))

/-- Source (bidirectional) `samples_per_line = total_scan`. -/
def bidiSamplesPerLine (resolution_x : ℕ) (fill_fraction : ℚ) : ℤ :=
  totalScan resolution_x fill_fraction

/-- Source `MicroscopeController.__configure_microscope` line
`self.read_samples = self.samples_per_line * self.resolution + sum(self.padding)`. -/
def read_samples (samples_per_line : ℕ) (resolution : ℕ) (padding : ℕ × ℕ) : ℕ :=
  samples_per_line * resolution + (padding.1 + padding.2)

/-! The voltage-level pieces of the waveform generators.  Voltages are real
numbers; the base ramps stay rational and are cast into `ℝ` when scaled. -/

/-- Source `utils.generate_flyback(amplitude, offset, pixels)`:
`amplitude * np.cos(np.linspace(0, pi, pixels)) - offset`.  As with
`linspace`, the `pixels = 1` case agrees with numpy because `0 / 0 = 0`. -/
noncomputable def generate_flyback (amplitude offset : ℝ) (pixels : ℕ) : List ℝ :=
  (List.range pixels).map
    (fun i : ℕ => amplitude * Real.cos (Real.pi * (i : ℝ) / ((pixels : ℝ) - 1)) - offset)

/-- Source (sawtooth) `total_amplitude = amplitude / fill_fraction`. -/
noncomputable def totalAmplitude (amplitude : ℝ) (fill_fraction : ℚ) : ℝ :=
  amplitude / (fill_fraction : ℝ)

/-- Source (sawtooth) `total_offset = (1-fill_fraction)*total_amplitude + offset[0]`. -/
noncomputable def totalOffset (amplitude offset_x : ℝ) (fill_fraction : ℚ) : ℝ :=
  (1 - (fill_fraction : ℝ)) * totalAmplitude amplitude fill_fraction + offset_x

/-- Source (sawtooth) `x_scan = total_amplitude * sawtooth(total_scan) - total_offset`:
one line's linear x-ramp before clipping. -/
noncomputable def xScan (amplitude offset_x : ℝ) (fill_fraction : ℚ) (total_scan : ℕ) :
    List ℝ :=
  (sawtooth total_scan 1 1).map
    (fun v : ℚ => totalAmplitude amplitude fill_fraction * (v : ℝ) -
      totalOffset amplitude offset_x fill_fraction)

/-- Source (both generators)
`y_data = amplitude * sawtooth(resolution[1], samples_per_line) - offset[1]`. -/
noncomputable def yDataRaw (amplitude offset_y : ℝ) (resolution_y samples_per_line : ℕ) :
    List ℝ :=
  (sawtooth resolution_y samples_per_line 1).map (fun v : ℚ => amplitude * (v : ℝ) - offset_y)

/-- Source (sawtooth) `x_data = np.tile(np.concatenate([x_scan, x_flyback]), resolution[1])`. -/
noncomputable def sawtoothXDataRaw (amplitude offset_x : ℝ) (fill_fraction : ℚ)
    (total_scan flyback resolution_y : ℕ) : List ℝ :=
  npTile
    (xScan amplitude offset_x fill_fraction total_scan ++
      generate_flyback (totalAmplitude amplitude fill_fraction)
        (totalOffset amplitude offset_x fill_fraction) flyback)
    resolution_y

/-- Source (bidirectional)
`x_data = total_amplitude * triangle(total_scan, 1, resolution[1]) - offset[0]`. -/
noncomputable def bidiXDataRaw (amplitude offset_x : ℝ) (fill_fraction : ℚ)
    (total_scan resolution_y : ℕ) : List ℝ :=
  (triangle total_scan 1 resolution_y).map
    (fun v : ℚ => totalAmplitude amplitude fill_fraction * (v : ℝ) - offset_x)

/-- Source (both generators): prepend `padding[0]` copies of the first sample
and append `padding[1]` copies of the last sample,
`np.concatenate((np.full(padding[0], data[0]), data, np.full(padding[1], data[-1])))`.
The defaulted head/last are only reached behind the emptiness guard that models
the `IndexError` Python would raise on `data[0]`. -/
def padList (padding : ℕ × ℕ) (l : List ℝ) : List ℝ :=
  List.replicate padding.1 (l.headD 0) ++ l ++ List.replicate padding.2 (l.getLastD 0)

/-- Return value of `generate_sawtooth_scan`:
`(x_data, y_data, samples_per_line, throwaway, flyback, padding)`. -/
structure SawtoothScanResult where
  x_data : List ℝ
  y_data : List ℝ
  samples_per_line : ℤ
  throwaway : ℤ
  flyback : ℕ
  padding : ℕ × ℕ

/-- Return value of `generate_bidirectional_scan`:
`(x_data, y_data, samples_per_line, throwaway, padding)`. -/
structure BidirectionalScanResult where
  x_data : List ℝ
  y_data : List ℝ
  samples_per_line : ℤ
  throwaway : ℤ
  padding : ℕ × ℕ

/-- Embedding of `utils.generate_sawtooth_scan`.  The guards reproduce, in
evaluation order, the runtime errors the Python function can raise:
`ZeroDivisionError` from `resolution[0] / fill_fraction` when the fill
fraction is zero, numpy's `ValueError` from `np.linspace` when
`int(resolution[0] / fill_fraction)` is negative, the explicit
`assert x_data.size == y_data.size`, and the `IndexError` from `x_data[0]`
in the padding step when the waveform is empty. -/
noncomputable def generate_sawtooth_scan (resolution : ℕ × ℕ) (amplitude : ℝ)
    (offset : ℝ × ℝ) (fill_fraction : ℚ) (flyback : ℕ) (padding : ℕ × ℕ) :
    Except PyErr SawtoothScanResult :=
  if fill_fraction = 0 then .error .zeroDivisionError
  else if totalScan resolution.1 fill_fraction < 0 then .error .valueError
  else
    let total_scan : ℕ := (totalScan resolution.1 fill_fraction).toNat
    let samples_per_line : ℤ := sawtoothSamplesPerLine resolution.1 fill_fraction flyback
    let x_data := sawtoothXDataRaw amplitude offset.1 fill_fraction total_scan flyback
      resolution.2
    let y_data := yDataRaw amplitude offset.2 resolution.2 samples_per_line.toNat
    if x_data.length ≠ y_data.length then .error .assertionError
    else if x_data.isEmpty then .error .indexError
    else
      .ok { x_data := padList padding (x_data.map (fun v => npClip v (-10) 10))
            y_data := padList padding (y_data.map (fun v => npClip v (-10) 10))
            samples_per_line := samples_per_line
            throwaway := sawtoothThrowaway resolution.1 fill_fraction
            flyback := flyback
            padding := padding }

/-- Embedding of `utils.generate_bidirectional_scan`, with the same error
guards as the sawtooth generator (there is no flyback segment). -/
noncomputable def generate_bidirectional_scan (resolution : ℕ × ℕ) (amplitude : ℝ)
    (offset : ℝ × ℝ) (fill_fraction : ℚ) (padding : ℕ × ℕ) :
    Except PyErr BidirectionalScanResult :=
  if fill_fraction = 0 then .error .zeroDivisionError
  else if totalScan resolution.1 fill_fraction < 0 then .error .valueError
  else
    let total_scan : ℕ := (totalScan resolution.1 fill_fraction).toNat
    let samples_per_line : ℤ := bidiSamplesPerLine resolution.1 fill_fraction
    let x_data := bidiXDataRaw amplitude offset.1 fill_fraction total_scan resolution.2
    let y_data := yDataRaw amplitude offset.2 resolution.2 samples_per_line.toNat
    if x_data.length ≠ y_data.length then .error .assertionError
    else if x_data.isEmpty then .error .indexError
    else
      .ok { x_data := padList padding (x_data.map (fun v => npClip v (-10) 10))
            y_data := padList padding (y_data.map (fun v => npClip v (-10) 10))
            samples_per_line := samples_per_line
            throwaway := bidiThrowaway resolution.1 fill_fraction
            padding := padding }

/-! Frame decoder: `MicroscopeController.process_frame`. -/

/-- Split a list into consecutive chunks of the given sizes. -/
def splitBySizes : List ℕ → List α → List (List α)
  | [], _ => []
  | s :: ss, l => l.take s :: splitBySizes ss (l.drop s)

/-- Chunk sizes used by `np.array_split(l, n)` on a length-`m` input: the
first `m % n` chunks have `m / n + 1` elements, the rest `m / n`. -/
def chunkSizes (m n : ℕ) : List ℕ :=
  (List.range n).map (fun i => if i < m % n then m / n + 1 else m / n)

/-- Embedding of `np.array_split(l, n)`: `n` near-equal consecutive chunks.
`np.array_split` raises `ValueError` when the section count is not positive;
that error is modelled in `process_frame` — the only caller — whose guard
fires exactly when a zero-section split would be executed, so this pure
function is only evaluated on the non-raising inputs. -/
def arraySplit (l : List α) (n : ℕ) : List (List α) :=
  splitBySizes (chunkSizes l.length n) l

/-- Source `process_frame` inner loop: `line_data[start:stop]` with
`start = self.throwaway` and `stop = start + self.resolution`. -/
def cropLine (throwaway resolution : ℕ) (line : List α) : List α :=
  (line.drop throwaway).take resolution

/-- Source `process_frame` bidirectional branch:
`for i in range(1, self.resolution, 2): frame[channel][i] = np.flip(frame[channel][i])`,
an in-place reversal of each odd-indexed row. -/
def flipOddRowsLoop (resolution : ℕ) (rows : List (List α)) : List (List α) :=
  (pyRange 1 resolution 2).foldl (fun r i => r.set i (r.getD i []).reverse) rows

/-- Decode one channel of raw samples: drop the `start_wait + delay` lead,
`np.array_split` into `resolution` rows, crop each row's throwaway window,
and reverse odd rows for the bidirectional pattern. -/
def decodeChannel (start_wait delay throwaway resolution : ℕ) (pattern : ScanPattern)
    (channel_data : List ℝ) : List (List ℝ) :=
  let data := channel_data.drop (start_wait + delay)
  let rows := (arraySplit data resolution).map (cropLine throwaway resolution)
  if pattern = .bidirectional then flipOddRowsLoop resolution rows else rows

/-- Modelled behaviour of the trailing `np.array(frame)` on a 3-level nested
list (numpy 1.24 and later, no version pinned by the repo): construction
succeeds iff the nested list is rectangular — every channel has the same
row-length profile and that profile is constant — and otherwise raises
`ValueError` for an inhomogeneous shape. -/
def npArrayCheck (frame : List (List (List ℝ))) : Bool :=
  let shapes := frame.map (fun ch => ch.map List.length)
  (shapes.all (fun sh => sh == shapes.headD [])) &&
    (match shapes with
     | [] => true
     | s0 :: _ => s0.all (fun c => c == s0.headD 0))

/-- Embedding of `MicroscopeController.process_frame`.  The guards reproduce,
in evaluation order, the runtime errors the Python method can raise: the
`ValueError` from `np.array_split(data, resolution)` when the section count
is zero (raised in the first loop iteration, so only when the raw block has
at least one channel); the `IndexError` from assigning `frame[channel]` for a
block with more channels than the configured
`frame = [[] for _ in range(number_of_channels)]` (missing channels stay as
empty rows); and the `ValueError` from the final `np.array(frame)` when the
decoded rows are not rectangular.  No sample-count check is performed. -/
def process_frame (number_of_channels start_wait delay throwaway resolution : ℕ)
    (pattern : ScanPattern) (raw_data : List (List ℝ)) :
    Except PyErr (List (List (List ℝ))) :=
  if raw_data.length ≠ 0 ∧ resolution = 0 then .error .valueError
  else if number_of_channels < raw_data.length then .error .indexError
  else
    let frame := (raw_data.map (decodeChannel start_wait delay throwaway resolution pattern)) ++
      List.replicate (number_of_channels - raw_data.length) []
    if npArrayCheck frame then .ok frame else .error .valueError

/-! Acquisition pipeline scan producer: `Hyperspecter.acquire_scan`. -/

/-- One entry in the producer/consumer frame queue: a frame (abstracted to the
index of the scan step that produced it) or the terminating sentinel
(`image_q.put(None)`). -/
inductive QItem where
  | frame (i : ℕ)
  | sentinel
  deriving DecidableEq

/-- Embedding of `np.arange(a, b, s)` for a nonzero rational step:
`max(0, ceil((b - a) / s))` values `a, a + s, a + 2s, ...`. -/
def npArange (a b s : ℚ) : List ℚ :=
  if s = 0 then []
  else (List.range (⌈(b - a) / s⌉).toNat).map (fun i : ℕ => a + (i : ℚ) * s)

/-- Embedding of `np.polyval(coeffs, x)`: Horner evaluation with the highest
degree coefficient first. -/
def polyval (coeffs : List ℚ) (x : ℚ) : ℚ :=
  coeffs.foldl (fun acc c => acc * x + c) 0

/-- Source `Hyperspecter.__init__`: `self.wavenumber_to_delay = [0.0011, 72.37]`,
the wavenumber-to-delay-stage calibration polynomial. -/
def wavenumber_to_delay : List ℚ :=
  [11/10000, 7237/100]

/-- Source `acquire_scan` scan-point computation: reverse the step sign when
`end < start`, then `wavenumbers = np.arange(start, end + step, step)`. -/
def scanWavenumbers (start stop step : ℚ) : List ℚ :=
  let step' := if stop < start then -1 * step else step
  npArange start (stop + step') step'

/-- Source `delay_positions = np.polyval(self.wavenumber_to_delay, wavenumbers)`:
the stage positions the scan loop will command. -/
def scanDelayPositions (start stop step : ℚ) : List ℚ :=
  (scanWavenumbers start stop step).map (polyval wavenumber_to_delay)

/-- The `for position in delay_positions: try: move; acquire; put except: break`
loop of `acquire_scan`.  `mv i` / `aq i` tell whether the `i`-th stage move /
frame acquisition succeeds; the first failure breaks out of the loop.  Returns
the stage positions actually reached and the queue items pushed. -/
def scanLoop (mv aq : ℕ → Bool) : List ℚ → ℕ → List ℚ × List QItem
  | [], _ => ([], [])
  | p :: ps, i =>
    if mv i then
      if aq i then
        let rest := scanLoop mv aq ps (i + 1)
        (p :: rest.1, .frame i :: rest.2)
      else ([p], [])
    else ([], [])

/-- Embedding of `Hyperspecter.acquire_scan` (hardware branch): run the scan
loop over the calibrated delay positions, then push exactly one sentinel
(`image_q.put(None)`) whatever happened in the loop. -/
def acquire_scan (start stop step : ℚ) (mv aq : ℕ → Bool) : List ℚ × List QItem :=
  let run := scanLoop mv aq (scanDelayPositions start stop step) 0
  (run.1, run.2 ++ [.sentinel])

/-! Intensity-scaling utilities: `utils.scale_min_max`, `convert_to_16_bit`,
`convert_to_8_bit`. -/

/-- Embedding of `x.min()` on a nonempty numpy array (numpy raises on an empty
array; the `[]` case is a junk default never reached by the theorems). -/
def npMin : List ℚ → ℚ
  | [] => 0
  | h :: t => t.foldl min h

/-- Embedding of `x.max()` on a nonempty numpy array. -/
def npMax : List ℚ → ℚ
  | [] => 0
  | h :: t => t.foldl max h

/-- Python truthiness used by `mi = minimum if minimum else x.min()`: `None`
and `0.0` both fall back to the default. -/
def pyFloatOr (o : Option ℚ) (d : ℚ) : ℚ :=
  match o with
  | none => d
  | some v => if v = 0 then d else v

/-- Embedding of `utils.scale_min_max(array, minimum, maximum)`:
`np.clip((x - mi)/(ma - mi), 0, 1)` with truthiness-defaulted bounds. -/
def scale_min_max (array : List ℚ) (minimum maximum : Option ℚ) : List ℚ :=
  let mi := pyFloatOr minimum (npMin array)
  let ma := pyFloatOr maximum (npMax array)
  array.map (fun x => npClipQ ((x - mi) / (ma - mi)) 0 1)

/-- C-style cast of a nonnegative float to `uint16` as performed by
`astype(np.uint16)`: truncate toward zero, then wrap modulo `2^16`. -/
def castUint16 (q : ℚ) : ℕ :=
  ((pyInt q) % 65536).toNat

/-- C-style cast to `uint8` as performed by `astype(np.uint8)`. -/
def castUint8 (q : ℚ) : ℕ :=
  ((pyInt q) % 256).toNat

/-- Embedding of `utils.convert_to_16_bit`:
`(scale_min_max(array, minimum, maximum) * 2**16).astype(np.uint16)`. -/
def convert_to_16_bit (array : List ℚ) (minimum maximum : Option ℚ) : List ℕ :=
  (scale_min_max array minimum maximum).map (fun q => castUint16 (q * 2 ^ 16))

/-- Embedding of `utils.convert_to_8_bit`:
`(scale_min_max(array, minimum, maximum) * 2**8).astype(np.uint8)`. -/
def convert_to_8_bit (array : List ℚ) (minimum maximum : Option ℚ) : List ℕ :=
  (scale_min_max array minimum maximum).map (fun q => castUint8 (q * 2 ^ 8))

/-! Basic facts about the embedded list primitives. -/

theorem length_linspace (n : ℕ) : (linspace n).length = n := by
  rw [linspace, List.length_map, List.length_range]

theorem length_npRepeat (l : List α) (s : ℕ) : (npRepeat l s).length = l.length * s := by
  induction l with
  | nil => simp [npRepeat]
  | cons a t ih =>
      simp only [npRepeat, List.map_cons, List.flatten_cons, List.length_append,
        List.length_replicate, List.length_cons] at *
      rw [ih]; ring

theorem length_npTile (l : List α) (n : ℕ) : (npTile l n).length = n * l.length := by
  induction n with
  | zero => simp [npTile]
  | succ m ih =>
      simp only [npTile, List.replicate_succ, List.flatten_cons, List.length_append] at *
      rw [ih]; ring

theorem length_sawtooth (p s n : ℕ) : (sawtooth p s n).length = n * (p * s) := by
  simp [sawtooth, length_npTile, length_npRepeat, length_linspace]

theorem length_sliceReverse (l : List α) (s e : ℕ) (hse : s ≤ e) (he : e ≤ l.length) :
    (sliceReverse l s e).length = l.length := by
  simp only [sliceReverse, List.length_append, List.length_reverse, List.length_take,
    List.length_drop]
  omega

theorem mem_pyRange_iff (a b s x : ℕ) (hs : 0 < s) :
    x ∈ pyRange a b s ↔ ∃ k, a + k * s = x ∧ a + k * s < b := by
  simp only [pyRange, List.mem_map, List.mem_range]
  constructor
  · rintro ⟨k, hk, rfl⟩
    refine ⟨k, rfl, ?_⟩
    have h1 : (k + 1) * s ≤ (b - a + s - 1) / s * s :=
      Nat.mul_le_mul_right _ hk
    have h2 : (b - a + s - 1) / s * s ≤ b - a + s - 1 := Nat.div_mul_le_self _ _
    have h3 : (k + 1) * s = k * s + s := by ring
    omega
  · rintro ⟨k, rfl, hkb⟩
    refine ⟨k, ?_, rfl⟩
    have h1 : (k + 1) ≤ (b - a + s - 1) / s ↔ (k + 1) * s ≤ b - a + s - 1 :=
      Nat.le_div_iff_mul_le hs
    have h3 : (k + 1) * s = k * s + s := by ring
    omega

theorem length_triangle (p s n : ℕ) : (triangle p s n).length = n * (p * s) := by
  rw [triangle]
  have h : ∀ is : List ℕ, (∀ i ∈ is, i < n) → ∀ l : List ℚ, l.length = n * (p * s) →
      (is.foldl (fun result i =>
        sliceReverse result (i * (p * s)) (i * (p * s) + (p * s))) l).length = n * (p * s) := by
    intro is
    induction is with
    | nil => intro _ l hl; simpa using hl
    | cons i t ih =>
        intro hmem l hl
        simp only [List.foldl_cons]
        refine ih (fun j hj => hmem j (List.mem_cons_of_mem _ hj)) _ ?_
        have hi : i < n := hmem i (List.mem_cons_self _ _)
        rw [length_sliceReverse _ _ _ (Nat.le_add_right _ _)]
        · exact hl
        · rw [hl]
          calc i * (p * s) + p * s = (i + 1) * (p * s) := by ring
            _ ≤ n * (p * s) := Nat.mul_le_mul_right _ hi
  refine h _ ?_ _ (length_sawtooth p s n)
  intro i hi
  rcases (mem_pyRange_iff 1 n 2 i (by norm_num)).mp hi with ⟨k, rfl, hk⟩
  omega

/-! Facts about the timing-plan arithmetic. -/

theorem pyInt_of_nonneg {q : ℚ} (h : 0 ≤ q) : pyInt q = ⌊q⌋ := by
  simp [pyInt, h]

theorem le_totalScan (rx : ℕ) (f : ℚ) (hf0 : 0 < f) (hf1 : f ≤ 1) :
    (rx : ℤ) ≤ totalScan rx f := by
  have hq : (rx : ℚ) ≤ (rx : ℚ) / f := by
    rw [le_div_iff₀ hf0]
    nlinarith [hf1, show (0 : ℚ) ≤ (rx : ℚ) from Nat.cast_nonneg rx]
  have hnn : 0 ≤ (rx : ℚ) / f :=
    le_trans (Nat.cast_nonneg rx) hq
  rw [totalScan, pyInt_of_nonneg hnn]
  exact Int.le_floor.mpr (by exact_mod_cast hq)

theorem totalScan_nonneg (rx : ℕ) (f : ℚ) (hf0 : 0 < f) (hf1 : f ≤ 1) :
    0 ≤ totalScan rx f :=
  le_trans (Int.ofNat_nonneg rx) (le_totalScan rx f hf0 hf1)

theorem sawtoothThrowaway_nonneg (rx : ℕ) (f : ℚ) (hf0 : 0 < f) (hf1 : f ≤ 1) :
    0 ≤ sawtoothThrowaway rx f := by
  have := le_totalScan rx f hf0 hf1
  simp only [sawtoothThrowaway]
  omega

theorem bidiThrowaway_nonneg (rx : ℕ) (f : ℚ) (hf0 : 0 < f) (hf1 : f ≤ 1) :
    0 ≤ bidiThrowaway rx f := by
  have hts := le_totalScan rx f hf0 hf1
  have harg : (0 : ℚ) ≤ (1/2 : ℚ) * ((totalScan rx f : ℚ) - (rx : ℚ)) := by
    have : (rx : ℚ) ≤ (totalScan rx f : ℚ) := by exact_mod_cast hts
    linarith
  rw [bidiThrowaway, pyInt_of_nonneg harg]
  exact Int.floor_nonneg.mpr harg

theorem bidiThrowaway_le (rx : ℕ) (f : ℚ) (hf0 : 0 < f) (hf1 : f ≤ 1) :
    bidiThrowaway rx f ≤ totalScan rx f - rx := by
  have hts := le_totalScan rx f hf0 hf1
  have hrq : (rx : ℚ) ≤ (totalScan rx f : ℚ) := by exact_mod_cast hts
  have harg : (0 : ℚ) ≤ (1/2 : ℚ) * ((totalScan rx f : ℚ) - (rx : ℚ)) := by linarith
  rw [bidiThrowaway, pyInt_of_nonneg harg]
  have : (1/2 : ℚ) * ((totalScan rx f : ℚ) - (rx : ℚ)) ≤ ((totalScan rx f - rx : ℤ) : ℚ) := by
    push_cast
    linarith
  calc ⌊(1/2 : ℚ) * ((totalScan rx f : ℚ) - (rx : ℚ))⌋ ≤ ⌊((totalScan rx f - rx : ℤ) : ℚ)⌋ :=
        Int.floor_mono this
    _ = totalScan rx f - rx := Int.floor_intCast _

/-- C1: for every `fill_fraction` in `(0,1]` and `resolution_x ≥ 1`, and for
each scan pattern, cropping the throwaway window out of one line recovers
exactly `resolution_x` pixels: for the sawtooth pattern the per-line discard
is `throwaway + flyback` and `samples_per_line - (throwaway + flyback)`
equals `resolution_x`; for both patterns the decoder's crop window applied to
a line of `samples_per_line` samples keeps exactly `resolution_x` of them. -/
theorem c1_crop_recovers_resolution (rx fb : ℕ) (f : ℚ)
    (hf0 : 0 < f) (hf1 : f ≤ 1) (hrx : 1 ≤ rx) :
    sawtoothSamplesPerLine rx f fb - (sawtoothThrowaway rx f + fb) = rx ∧
    (∀ line : List ℝ, line.length = (sawtoothSamplesPerLine rx f fb).toNat →
      (cropLine (sawtoothThrowaway rx f).toNat rx line).length = rx) ∧
    (∀ line : List ℝ, line.length = (bidiSamplesPerLine rx f).toNat →
      (cropLine (bidiThrowaway rx f).toNat rx line).length = rx) := by
  have hts := le_totalScan rx f hf0 hf1
  refine ⟨?_, ?_, ?_⟩
  · simp only [sawtoothSamplesPerLine, sawtoothThrowaway]
    ring
  · intro line hl
    simp only [cropLine, List.length_take, List.length_drop, hl,
      sawtoothSamplesPerLine, sawtoothThrowaway]
    omega
  · intro line hl
    have h0 := bidiThrowaway_nonneg rx f hf0 hf1
    have h1 := bidiThrowaway_le rx f hf0 hf1
    simp only [cropLine, List.length_take, List.length_drop, hl, bidiSamplesPerLine]
    omega

/-- Witness for C1 at `resolution_x = 4`, `fill_fraction = 1/2`, `flyback = 3`. -/
theorem c1_witness :
    sawtoothSamplesPerLine 4 (1/2) 3 - (sawtoothThrowaway 4 (1/2) + 3) = 4 ∧
    (∀ line : List ℝ, line.length = (sawtoothSamplesPerLine 4 (1/2) 3).toNat →
      (cropLine (sawtoothThrowaway 4 (1/2)).toNat 4 line).length = 4) ∧
    (∀ line : List ℝ, line.length = (bidiSamplesPerLine 4 (1/2)).toNat →
      (cropLine (bidiThrowaway 4 (1/2)).toNat 4 line).length = 4) :=
  c1_crop_recovers_resolution 4 3 (1/2) one_half_pos one_half_lt_one.le (by decide)

/-! Lengths of the generated waveform pieces. -/

theorem length_xScan (A ox : ℝ) (f : ℚ) (ts : ℕ) : (xScan A ox f ts).length = ts := by
  simp only [xScan, List.length_map, length_sawtooth]
  ring

theorem length_generate_flyback (A off : ℝ) (p : ℕ) : (generate_flyback A off p).length = p := by
  simp [generate_flyback]

theorem length_yDataRaw (A oy : ℝ) (ry spl : ℕ) : (yDataRaw A oy ry spl).length = ry * spl := by
  simp only [yDataRaw, List.length_map, length_sawtooth]
  ring

theorem length_sawtoothXDataRaw (A ox : ℝ) (f : ℚ) (ts fb ry : ℕ) :
    (sawtoothXDataRaw A ox f ts fb ry).length = ry * (ts + fb) := by
  simp [sawtoothXDataRaw, length_npTile, length_xScan, length_generate_flyback]

theorem length_bidiXDataRaw (A ox : ℝ) (f : ℚ) (ts ry : ℕ) :
    (bidiXDataRaw A ox f ts ry).length = ry * ts := by
  simp only [bidiXDataRaw, List.length_map, length_triangle]
  ring

theorem length_padList (pad : ℕ × ℕ) (l : List ℝ) :
    (padList pad l).length = pad.1 + l.length + pad.2 := by
  simp [padList]
  omega

theorem headD_mem {l : List α} (h : l ≠ []) (d : α) : l.headD d ∈ l := by
  cases l with
  | nil => exact absurd rfl h
  | cons a t => simp

theorem getLastD_mem {l : List α} (h : l ≠ []) (d : α) : l.getLastD d ∈ l := by
  induction l generalizing d with
  | nil => exact absurd rfl h
  | cons a t ih =>
      rw [List.getLastD_cons]
      cases t with
      | nil => simp
      | cons b u => exact List.mem_cons_of_mem _ (ih (by simp) a)

theorem mem_padList {m : List ℝ} {pad : ℕ × ℕ} {v : ℝ} (hm : m ≠ [])
    (hv : v ∈ padList pad m) : v ∈ m := by
  simp only [padList, List.mem_append, List.mem_replicate] at hv
  rcases hv with (⟨_, rfl⟩ | hv) | ⟨_, rfl⟩
  · exact headD_mem hm 0
  · exact hv
  · exact getLastD_mem hm 0

theorem npClip_bounds (v : ℝ) : -10 ≤ npClip v (-10) 10 ∧ npClip v (-10) 10 ≤ 10 := by
  constructor
  · exact le_min (le_max_right _ _) (by norm_num)
  · exact min_le_right _ _

/-! Success path of the two generators on valid geometry. -/

theorem generate_sawtooth_scan_eq_ok (rx ry fb : ℕ) (f : ℚ) (A : ℝ) (off : ℝ × ℝ)
    (pad : ℕ × ℕ) (hf0 : 0 < f) (hf1 : f ≤ 1) (hrx : 1 ≤ rx) (hry : 1 ≤ ry) :
    generate_sawtooth_scan (rx, ry) A off f fb pad =
      .ok { x_data := padList pad ((sawtoothXDataRaw A off.1 f (totalScan rx f).toNat fb
              ry).map (fun v => npClip v (-10) 10))
            y_data := padList pad ((yDataRaw A off.2 ry
              (sawtoothSamplesPerLine rx f fb).toNat).map (fun v => npClip v (-10) 10))
            samples_per_line := sawtoothSamplesPerLine rx f fb
            throwaway := sawtoothThrowaway rx f
            flyback := fb
            padding := pad } := by
  have hts := le_totalScan rx f hf0 hf1
  have hne : ¬ (f = 0) := ne_of_gt hf0
  have hnn : ¬ (totalScan rx f < 0) := not_lt.mpr (totalScan_nonneg rx f hf0 hf1)
  have hspl : (sawtoothSamplesPerLine rx f fb).toNat = (totalScan rx f).toNat + fb := by
    simp only [sawtoothSamplesPerLine]
    omega
  have hlen : (sawtoothXDataRaw A off.1 f (totalScan rx f).toNat fb ry).length
      = (yDataRaw A off.2 ry (sawtoothSamplesPerLine rx f fb).toNat).length := by
    rw [length_sawtoothXDataRaw, length_yDataRaw, hspl]
  have hpos : 0 < (sawtoothXDataRaw A off.1 f (totalScan rx f).toNat fb ry).length := by
    rw [length_sawtoothXDataRaw]
    have : 1 ≤ (totalScan rx f).toNat + fb := by omega
    exact Nat.mul_pos hry (by omega)
  have hemp : (sawtoothXDataRaw A off.1 f (totalScan rx f).toNat fb ry).isEmpty = false := by
    rw [List.isEmpty_eq_false_iff_exists_mem]
    exact List.exists_mem_of_length_pos hpos
  simp only [generate_sawtooth_scan, hne, hnn, hlen, hemp, if_false, ite_false,
    ne_eq, not_true_eq_false, Bool.false_eq_true]

theorem generate_bidirectional_scan_eq_ok (rx ry : ℕ) (f : ℚ) (A : ℝ) (off : ℝ × ℝ)
    (pad : ℕ × ℕ) (hf0 : 0 < f) (hf1 : f ≤ 1) (hrx : 1 ≤ rx) (hry : 1 ≤ ry) :
    generate_bidirectional_scan (rx, ry) A off f pad =
      .ok { x_data := padList pad ((bidiXDataRaw A off.1 f (totalScan rx f).toNat ry).map
              (fun v => npClip v (-10) 10))
            y_data := padList pad ((yDataRaw A off.2 ry
              (bidiSamplesPerLine rx f).toNat).map (fun v => npClip v (-10) 10))
            samples_per_line := bidiSamplesPerLine rx f
            throwaway := bidiThrowaway rx f
            padding := pad } := by
  have hts := le_totalScan rx f hf0 hf1
  have hne : ¬ (f = 0) := ne_of_gt hf0
  have hnn : ¬ (totalScan rx f < 0) := not_lt.mpr (totalScan_nonneg rx f hf0 hf1)
  have hspl : (bidiSamplesPerLine rx f).toNat = (totalScan rx f).toNat := by
    simp only [bidiSamplesPerLine]
  have hlen : (bidiXDataRaw A off.1 f (totalScan rx f).toNat ry).length
      = (yDataRaw A off.2 ry (bidiSamplesPerLine rx f).toNat).length := by
    rw [length_bidiXDataRaw, length_yDataRaw, hspl]
  have hpos : 0 < (bidiXDataRaw A off.1 f (totalScan rx f).toNat ry).length := by
    rw [length_bidiXDataRaw]
    exact Nat.mul_pos hry (by omega)
  have hemp : (bidiXDataRaw A off.1 f (totalScan rx f).toNat ry).isEmpty = false := by
    rw [List.isEmpty_eq_false_iff_exists_mem]
    exact List.exists_mem_of_length_pos hpos
  simp only [generate_bidirectional_scan, hne, hnn, hlen, hemp, if_false, ite_false,
    ne_eq, not_true_eq_false, Bool.false_eq_true]

/-! Concrete evaluation of the sawtooth generator at
`resolution = (1,1)`, `amplitude = 50`, `offset = (0,0)`, `fill_fraction = 1`,
no flyback, no padding; used to witness the clipping and length claims. -/

theorem linspace_one : linspace 1 = [-1] := by
  simp [linspace]

theorem sawtooth_one : sawtooth 1 1 1 = [-1] := by
  simp [sawtooth, npRepeat, npTile, linspace_one]

theorem totalScan_one_one : totalScan 1 1 = 1 := by
  norm_num [totalScan, pyInt]

theorem sawtooth_scan_concrete :
    generate_sawtooth_scan (1, 1) 50 (0, 0) 1 0 (0, 0) =
      .ok { x_data := [-10], y_data := [-10], samples_per_line := 1, throwaway := 0,
            flyback := 0, padding := (0, 0) } := by
  rw [generate_sawtooth_scan_eq_ok 1 1 0 1 50 (0, 0) (0, 0) one_pos le_rfl le_rfl le_rfl]
  have hx : sawtoothXDataRaw 50 (0, (0:ℝ)).1 1 (totalScan 1 1).toNat 0 1 = [-50] := by
    rw [totalScan_one_one]
    simp [sawtoothXDataRaw, npTile, generate_flyback, xScan, sawtooth_one,
      totalAmplitude, totalOffset]
  have hy : yDataRaw 50 (0, (0:ℝ)).2 1 (sawtoothSamplesPerLine 1 1 0).toNat = [-50] := by
    have : (sawtoothSamplesPerLine 1 1 0).toNat = 1 := by
      simp [sawtoothSamplesPerLine, totalScan_one_one]
    rw [this]
    simp [yDataRaw, sawtooth_one]
  have hclip : npClip (-50) (-10) 10 = -10 := by
    rw [npClip, max_eq_right (by norm_num : (-50 : ℝ) ≤ -10),
      min_eq_left (by norm_num : (-10 : ℝ) ≤ 10)]
  have hthr : sawtoothThrowaway 1 1 = 0 := by
    simp [sawtoothThrowaway, totalScan_one_one]
  have hspl : sawtoothSamplesPerLine 1 1 0 = 1 := by
    simp [sawtoothSamplesPerLine, totalScan_one_one]
  rw [hx, hy, hthr, hspl]
  simp [padList, hclip]

/-- Bound for every element of a padded, clipped waveform. -/
theorem padded_clip_bounds {m : List ℝ} {pad : ℕ × ℕ} (hm : m ≠ []) :
    ∀ v ∈ padList pad (m.map (fun w => npClip w (-10) 10)), -10 ≤ v ∧ v ≤ 10 := by
  intro v hv
  have hmm : m.map (fun w => npClip w (-10) 10) ≠ [] := by
    simpa using hm
  rcases List.mem_map.mp (mem_padList hmm hv) with ⟨w, _, rfl⟩
  exact npClip_bounds w

/-- C2: every sample of the x- and y-axis sequences returned by
`generate_sawtooth_scan` and `generate_bidirectional_scan`, padding included,
lies in the interval `[-10, 10]` volts, for every amplitude, offset,
fill fraction, flyback count and padding request on which the generator
returns at all. -/
theorem c2_waveforms_clipped (resolution : ℕ × ℕ) (A : ℝ) (off : ℝ × ℝ)
    (f : ℚ) (fb : ℕ) (pad : ℕ × ℕ) :
    (∀ out, generate_sawtooth_scan resolution A off f fb pad = .ok out →
      (∀ v ∈ out.x_data, -10 ≤ v ∧ v ≤ 10) ∧ ∀ v ∈ out.y_data, -10 ≤ v ∧ v ≤ 10) ∧
    (∀ out, generate_bidirectional_scan resolution A off f pad = .ok out →
      (∀ v ∈ out.x_data, -10 ≤ v ∧ v ≤ 10) ∧ ∀ v ∈ out.y_data, -10 ≤ v ∧ v ≤ 10) := by
  constructor
  · intro out h
    simp only [generate_sawtooth_scan] at h
    split_ifs at h with h1 h2 h3 h4
    rw [Except.ok.injEq] at h
    subst h
    have hx : sawtoothXDataRaw A off.1 f (totalScan resolution.1 f).toNat fb
        resolution.2 ≠ [] := by
      intro hnil
      exact h4 (by rw [hnil]; rfl)
    have hy : yDataRaw A off.2 resolution.2
        (sawtoothSamplesPerLine resolution.1 f fb).toNat ≠ [] := by
      have hlen := Decidable.not_not.mp h3
      intro hnil
      rw [hnil, List.length_nil, List.length_eq_zero] at hlen
      exact hx hlen
    exact ⟨padded_clip_bounds hx, padded_clip_bounds hy⟩
  · intro out h
    simp only [generate_bidirectional_scan] at h
    split_ifs at h with h1 h2 h3 h4
    rw [Except.ok.injEq] at h
    subst h
    have hx : bidiXDataRaw A off.1 f (totalScan resolution.1 f).toNat
        resolution.2 ≠ [] := by
      intro hnil
      exact h4 (by rw [hnil]; rfl)
    have hy : yDataRaw A off.2 resolution.2
        (bidiSamplesPerLine resolution.1 f).toNat ≠ [] := by
      have hlen := Decidable.not_not.mp h3
      intro hnil
      rw [hnil, List.length_nil, List.length_eq_zero] at hlen
      exact hx hlen
    exact ⟨padded_clip_bounds hx, padded_clip_bounds hy⟩

/-- Witness for C2 at amplitude 50, offset `(0,0)`, fill fraction 1: the
generator output is `[-10]` on both axes, and every sample is within
`[-10, 10]`. -/
theorem c2_witness :
    generate_sawtooth_scan (1, 1) 50 (0, 0) 1 0 (0, 0) =
      .ok { x_data := [-10], y_data := [-10], samples_per_line := 1, throwaway := 0,
            flyback := 0, padding := (0, 0) } ∧
    (∀ v ∈ ([-10] : List ℝ), -10 ≤ v ∧ v ≤ 10) :=
  ⟨sawtooth_scan_concrete,
    ((c2_waveforms_clipped (1, 1) 50 (0, 0) 1 0 (0, 0)).1 _ sawtooth_scan_concrete).1⟩

/-- C6: for both scan patterns, the generated x- and y-axis sequences have
equal length, and that length equals
`samples_per_line * resolution_y + lead + trail`, which is also the
`read_samples` count the acquisition session computes per channel. -/
theorem c6_total_read_samples (rx ry fb : ℕ) (f : ℚ) (A : ℝ) (off : ℝ × ℝ)
    (pad : ℕ × ℕ) (hf0 : 0 < f) (hf1 : f ≤ 1) (hrx : 1 ≤ rx) (hry : 1 ≤ ry) :
    (∀ out, generate_sawtooth_scan (rx, ry) A off f fb pad = .ok out →
      out.x_data.length = out.y_data.length ∧
      (out.x_data.length : ℤ) = out.samples_per_line * ry + pad.1 + pad.2 ∧
      out.x_data.length = read_samples out.samples_per_line.toNat ry pad) ∧
    (∀ out, generate_bidirectional_scan (rx, ry) A off f pad = .ok out →
      out.x_data.length = out.y_data.length ∧
      (out.x_data.length : ℤ) = out.samples_per_line * ry + pad.1 + pad.2 ∧
      out.x_data.length = read_samples out.samples_per_line.toNat ry pad) := by
  have hts := le_totalScan rx f hf0 hf1
  have htsN : ((totalScan rx f).toNat : ℤ) = totalScan rx f :=
    Int.toNat_of_nonneg (totalScan_nonneg rx f hf0 hf1)
  constructor
  · intro out h
    rw [generate_sawtooth_scan_eq_ok rx ry fb f A off pad hf0 hf1 hrx hry,
      Except.ok.injEq] at h
    subst h
    have hsplN : (sawtoothSamplesPerLine rx f fb).toNat = (totalScan rx f).toNat + fb := by
      simp only [sawtoothSamplesPerLine]
      omega
    refine ⟨?_, ?_, ?_⟩
    · simp [length_padList, length_sawtoothXDataRaw, length_yDataRaw, hsplN]
    · simp only [length_padList, List.length_map, length_sawtoothXDataRaw,
        sawtoothSamplesPerLine]
      push_cast
      rw [htsN]
      ring
    · simp only [length_padList, List.length_map, length_sawtoothXDataRaw, read_samples,
        hsplN]
      ring
  · intro out h
    rw [generate_bidirectional_scan_eq_ok rx ry f A off pad hf0 hf1 hrx hry,
      Except.ok.injEq] at h
    subst h
    refine ⟨?_, ?_, ?_⟩
    · simp [length_padList, length_bidiXDataRaw, length_yDataRaw, bidiSamplesPerLine]
    · simp only [length_padList, List.length_map, length_bidiXDataRaw,
        bidiSamplesPerLine]
      push_cast
      rw [htsN]
      ring
    · simp only [length_padList, List.length_map, length_bidiXDataRaw, read_samples,
        bidiSamplesPerLine]
      ring

/-- Witness for C6 at resolution `(1,1)`, fill fraction 1, no padding: both
axes have one sample, which equals `1 * 1 + 0 + 0 = read_samples 1 1 (0,0)`. -/
theorem c6_witness :
    ([-10] : List ℝ).length = ([-10] : List ℝ).length ∧
    (([-10] : List ℝ).length : ℤ) = 1 * 1 + 0 + 0 ∧
    ([-10] : List ℝ).length = read_samples (Int.toNat 1) 1 (0, 0) :=
  (c6_total_read_samples 1 1 0 1 50 (0, 0) (0, 0) one_pos le_rfl le_rfl le_rfl).1 _
    sawtooth_scan_concrete

theorem totalScan_zero_one : totalScan 0 1 = 0 := by
  norm_num [totalScan, pyInt]

theorem totalScan_one_negone_neg : totalScan 1 (-1) < 0 := by
  norm_num [totalScan, pyInt]

theorem negOne_ne_zero_rat : (-1 : ℚ) ≠ 0 := by
  norm_num

/-- C3 (amended): the code performs no geometry validation and defines no
`InvalidGeometry` error.  Invalid geometry surfaces as ordinary runtime
errors of the waveform step itself: `fill_fraction = 0` raises
`ZeroDivisionError` from the `int(resolution[0] / fill_fraction)` division;
a negative fill fraction making `int(resolution[0]/fill_fraction)` negative
raises numpy's `ValueError`; `resolution_x = 0` with no flyback raises
`IndexError` in the padding step; and on every valid input
(`0 < fill_fraction ≤ 1`, both resolutions `≥ 1`) no error is raised. -/
theorem c3_no_invalid_geometry_error (rx ry fb : ℕ) (f : ℚ) (A : ℝ) (off : ℝ × ℝ)
    (pad : ℕ × ℕ) :
    (f = 0 → generate_sawtooth_scan (rx, ry) A off f fb pad = .error .zeroDivisionError) ∧
    (f ≠ 0 → totalScan rx f < 0 →
      generate_sawtooth_scan (rx, ry) A off f fb pad = .error .valueError) ∧
    (generate_sawtooth_scan (0, ry) A off 1 0 pad = .error .indexError) ∧
    (0 < f → f ≤ 1 → 1 ≤ rx → 1 ≤ ry →
      ∃ out, generate_sawtooth_scan (rx, ry) A off f fb pad = .ok out) := by
  refine ⟨?_, ?_, ?_, ?_⟩
  · intro h
    subst h
    simp [generate_sawtooth_scan]
  · intro h0 hneg
    simp [generate_sawtooth_scan, h0, hneg]
  · have hxe : sawtoothXDataRaw A off.1 1 0 0 ry = [] := by
      apply List.length_eq_zero.mp
      rw [length_sawtoothXDataRaw]
      simp
    have hye : yDataRaw A off.2 ry (sawtoothSamplesPerLine 0 1 0).toNat = [] := by
      apply List.length_eq_zero.mp
      rw [length_yDataRaw]
      have : (sawtoothSamplesPerLine 0 1 0).toNat = 0 := by
        simp [sawtoothSamplesPerLine, totalScan_zero_one]
      rw [this]
      simp
    simp [generate_sawtooth_scan, hxe, hye, totalScan_zero_one]
  · intro hf0 hf1 hrx hry
    exact ⟨_, generate_sawtooth_scan_eq_ok rx ry fb f A off pad hf0 hf1 hrx hry⟩

/-- Counterexample to C3 as stated: at `fill_fraction = 0` the waveform step
divides by zero (`ZeroDivisionError` from `int(resolution[0]/fill_fraction)`)
instead of failing with a dedicated `InvalidGeometry` error. -/
theorem c3_counterexample :
    generate_sawtooth_scan (4, 4) 10 (0, 0) 0 0 (0, 0) = .error .zeroDivisionError := by
  simp [generate_sawtooth_scan]

/-- Witness for C3 (amended): each error case and the success case realised
at concrete inputs. -/
theorem c3_witness :
    generate_sawtooth_scan (4, 4) 10 (0, 0) 0 0 (0, 0) = .error .zeroDivisionError ∧
    generate_sawtooth_scan (1, 1) 10 (0, 0) (-1) 0 (0, 0) = .error .valueError ∧
    generate_sawtooth_scan (0, 2) 10 (0, 0) 1 0 (0, 0) = .error .indexError ∧
    (∃ out, generate_sawtooth_scan (2, 2) 10 (0, 0) 1 0 (0, 0) = .ok out) :=
  ⟨(c3_no_invalid_geometry_error 4 4 0 0 10 (0, 0) (0, 0)).1 rfl,
   (c3_no_invalid_geometry_error 1 1 0 (-1) 10 (0, 0) (0, 0)).2.1 negOne_ne_zero_rat
     totalScan_one_negone_neg,
   (c3_no_invalid_geometry_error 0 2 0 1 10 (0, 0) (0, 0)).2.2.1,
   (c3_no_invalid_geometry_error 2 2 0 1 10 (0, 0) (0, 0)).2.2.2 one_pos le_rfl
     one_le_two one_le_two⟩

/-! Facts about `np.array_split` on evenly divisible input. -/

theorem length_splitBySizes (ss : List ℕ) (l : List α) :
    (splitBySizes ss l).length = ss.length := by
  induction ss generalizing l with
  | nil => simp [splitBySizes]
  | cons s t ih => simp [splitBySizes, ih]

theorem length_chunkSizes (m n : ℕ) : (chunkSizes m n).length = n := by
  simp [chunkSizes]

theorem length_arraySplit (l : List α) (n : ℕ) : (arraySplit l n).length = n := by
  rw [arraySplit, length_splitBySizes, length_chunkSizes]

theorem length_flatten_const {rows : List (List α)} {k : ℕ}
    (h : ∀ r ∈ rows, r.length = k) :
    rows.flatten.length = rows.length * k := by
  induction rows with
  | nil => simp
  | cons r t ih =>
      simp only [List.flatten_cons, List.length_append, List.length_cons]
      rw [h r (List.mem_cons_self _ _), ih (fun q hq => h q (List.mem_cons_of_mem _ hq))]
      ring

theorem splitBySizes_replicate {rows : List (List α)} {k : ℕ}
    (h : ∀ r ∈ rows, r.length = k) :
    splitBySizes (List.replicate rows.length k) rows.flatten = rows := by
  induction rows with
  | nil => simp [splitBySizes]
  | cons r t ih =>
      simp only [List.length_cons, List.replicate_succ, List.flatten_cons, splitBySizes]
      have hr : r.length = k := h r (List.mem_cons_self _ _)
      rw [List.take_left' hr, List.drop_left' hr,
        ih (fun q hq => h q (List.mem_cons_of_mem _ hq))]

theorem chunkSizes_mul (n k : ℕ) : chunkSizes (n * k) n = List.replicate n k := by
  cases n with
  | zero => simp [chunkSizes]
  | succ m =>
      have hmod : (m + 1) * k % (m + 1) = 0 := by
        rw [Nat.mul_comm]
        exact Nat.mul_mod_left _ _
      have hdiv : (m + 1) * k / (m + 1) = k := Nat.mul_div_cancel_left k (Nat.succ_pos m)
      simp only [chunkSizes, hmod, hdiv, Nat.not_lt_zero, if_false]
      rw [List.eq_replicate_iff]
      constructor
      · simp
      · intro b hb
        rcases List.mem_map.mp hb with ⟨i, _, rfl⟩
        simp

theorem arraySplit_flatten {rows : List (List α)} {k : ℕ}
    (h : ∀ r ∈ rows, r.length = k) :
    arraySplit rows.flatten rows.length = rows := by
  rw [arraySplit, length_flatten_const h, chunkSizes_mul, splitBySizes_replicate h]

/-- Counterexample to C4 as stated: a per-channel block of 6 samples against a
plan whose `total_read_samples` is 4 (`resolution = 2`, `samples_per_line = 2`,
no padding) is decoded without any error: `np.array_split` silently splits it
into two 3-sample chunks, the crop drops samples 2 and 5, and the decoder
returns the truncated frame — no `ShapeMismatch`, no abort. -/
theorem c4_counterexample :
    process_frame 1 0 0 0 2 .sawtooth [[0, 1, 2, 3, 4, 5]] =
      .ok [[[(0 : ℝ), 1], [3, 4]]] := by
  rfl

/-- C4 (amended): `process_frame` performs no sample-count check and defines
no `ShapeMismatch`.  A wrong-length per-channel block is silently split by
`np.array_split` into near-equal chunks and cropped: whenever the cropped
rows come out rectangular (any 6-sample block against the 4-sample plan) the
silently truncated frame is returned with no error at all, and when they come
out ragged (any 3-sample block) the failure is numpy's untyped `ValueError`
from the final `np.array(frame)`, not a dedicated `ShapeMismatch` abort. -/
theorem c4_no_shape_check :
    (∀ a b c d e f : ℝ,
      process_frame 1 0 0 0 2 .sawtooth [[a, b, c, d, e, f]] =
        .ok [[[a, b], [d, e]]]) ∧
    (∀ a b c : ℝ,
      process_frame 1 0 0 0 2 .sawtooth [[a, b, c]] = .error .valueError) := by
  constructor
  · intro a b c d e f
    simp [process_frame, decodeChannel, arraySplit, chunkSizes, splitBySizes, cropLine,
      npArrayCheck]
  · intro a b c
    simp [process_frame, decodeChannel, arraySplit, chunkSizes, splitBySizes, cropLine,
      npArrayCheck]

/-- A rectangular nested list passes the modelled `np.array` shape check. -/
theorem npArrayCheck_of_uniform {frame : List (List (List ℝ))} {r c : ℕ}
    (h : ∀ ch ∈ frame, ch.length = r ∧ ∀ row ∈ ch, row.length = c) :
    npArrayCheck frame = true := by
  have hsh : ∀ ch ∈ frame, ch.map List.length = List.replicate r c := by
    intro ch hc
    rcases h ch hc with ⟨h1, h2⟩
    refine List.eq_replicate_iff.mpr ⟨by rw [List.length_map, h1], ?_⟩
    intro x hx
    rcases List.mem_map.mp hx with ⟨row, hrow, rfl⟩
    exact h2 row hrow
  rw [npArrayCheck]
  cases frame with
  | nil => rfl
  | cons g gs =>
      have hg : g.map List.length = List.replicate r c := hsh g (List.mem_cons_self _ _)
      simp only [List.map_cons, hg, List.headD_cons, Bool.and_eq_true, List.all_eq_true]
      constructor
      · intro sh hsh2
        rcases List.mem_cons.mp hsh2 with rfl | hmem
        · exact beq_self_eq_true _
        · rcases List.mem_map.mp hmem with ⟨ch, hch2, rfl⟩
          rw [hsh ch (List.mem_cons_of_mem _ hch2)]
          exact beq_self_eq_true _
      · cases r with
        | zero => simp
        | succ m =>
            simp only [List.replicate_succ, List.headD_cons, List.all_eq_true]
            intro x hx
            rcases List.mem_cons.mp hx with rfl | hmem
            · exact beq_self_eq_true _
            · rw [(List.mem_replicate.mp hmem).2]
              exact beq_self_eq_true _

/-- C5: for a plan with `resolution = 4`, `fill_fraction = 1` (so
`throwaway = 0` and `samples_per_line = 4`), no flyback and no padding,
decoding the row-major concatenation of any per-channel 4x4 pixel grid
returns exactly that grid, for every choice of pixel values and every
number of channels. -/
theorem c5_decode_roundtrip (grid : List (List (List ℝ)))
    (hch : ∀ ch ∈ grid, ch.length = 4 ∧ ∀ r ∈ ch, r.length = 4) :
    process_frame grid.length 0 0 0 4 .sawtooth (grid.map List.flatten) = .ok grid := by
  rw [process_frame, if_neg (by simp), if_neg (by simp)]
  simp only [List.length_map, Nat.sub_self, List.replicate_zero, List.append_nil,
    List.map_map]
  have hdec : ∀ ch ∈ grid, (decodeChannel 0 0 0 4 .sawtooth ∘ List.flatten) ch = ch := by
    intro ch hc
    rcases hch ch hc with ⟨hlen, hrows⟩
    simp only [Function.comp_apply, decodeChannel, Nat.add_zero, List.drop_zero]
    rw [if_neg (by simp)]
    have hsplit : arraySplit ch.flatten 4 = ch := by
      rw [← hlen]
      exact arraySplit_flatten hrows
    rw [hsplit]
    have : ∀ r ∈ ch, cropLine 0 4 r = r := by
      intro r hr
      rw [cropLine, List.drop_zero, ← hrows r hr, List.take_length]
    calc ch.map (cropLine 0 4) = ch.map id := List.map_congr_left this
      _ = ch := List.map_id ch
  have hmap : grid.map (decodeChannel 0 0 0 4 .sawtooth ∘ List.flatten) = grid :=
    calc grid.map (decodeChannel 0 0 0 4 .sawtooth ∘ List.flatten)
        = grid.map id := List.map_congr_left hdec
      _ = grid := List.map_id grid
  rw [hmap, if_pos (npArrayCheck_of_uniform hch)]

/-- Witness for C5: the all-zero 1-channel 4x4 grid round-trips. -/
theorem c5_witness :
    (∀ ch ∈ ([[[0, 0, 0, 0], [0, 0, 0, 0], [0, 0, 0, 0], [0, 0, 0, 0]]] :
        List (List (List ℝ))), ch.length = 4 ∧ ∀ r ∈ ch, r.length = 4) ∧
    process_frame 1 0 0 0 4 .sawtooth
        (([[[0, 0, 0, 0], [0, 0, 0, 0], [0, 0, 0, 0], [0, 0, 0, 0]]] :
          List (List (List ℝ))).map List.flatten) =
      .ok [[[0, 0, 0, 0], [0, 0, 0, 0], [0, 0, 0, 0], [0, 0, 0, 0]]] :=
  ⟨by simp, c5_decode_roundtrip
    [[[0, 0, 0, 0], [0, 0, 0, 0], [0, 0, 0, 0], [0, 0, 0, 0]]] (by simp)⟩

/-! The bidirectional row flip: the source's in-place loop versus the spec's
description (reverse exactly the odd-indexed rows). -/

/-- Reverse exactly the odd-indexed rows, written as straightforward
structural recursion over the rows with a running index (this is the
specification's wording, proved below to agree with the source's in-place
`range(1, resolution, 2)` loop). -/
def flipOddSpec : ℕ → List (List α) → List (List α)
  | _, [] => []
  | i, r :: rs => (if i % 2 = 1 then r.reverse else r) :: flipOddSpec (i + 1) rs

theorem getElem?_flipOddSpec (i j : ℕ) (rows : List (List α)) :
    (flipOddSpec i rows)[j]? =
      if (i + j) % 2 = 1 then rows[j]?.map List.reverse else rows[j]? := by
  induction rows generalizing i j with
  | nil => simp [flipOddSpec]
  | cons r t ih =>
      cases j with
      | zero =>
          simp only [flipOddSpec, List.getElem?_cons_zero, Nat.add_zero]
          split_ifs <;> rfl
      | succ m =>
          simp only [flipOddSpec, List.getElem?_cons_succ]
          rw [ih (i + 1) m]
          have harith : i + 1 + m = i + (m + 1) := by ring
          rw [harith]

theorem foldl_set_reverse_getElem? (is : List ℕ) (hnd : is.Nodup)
    (rows : List (List α)) (j : ℕ) :
    (is.foldl (fun r i => r.set i (r.getD i []).reverse) rows)[j]? =
      if j ∈ is then rows[j]?.map List.reverse else rows[j]? := by
  induction is generalizing rows with
  | nil => simp
  | cons i t ih =>
      have hnotmem : i ∉ t := (List.nodup_cons.mp hnd).1
      have hnd' : t.Nodup := (List.nodup_cons.mp hnd).2
      simp only [List.foldl_cons]
      rw [ih hnd']
      by_cases hji : j = i
      · subst hji
        rw [if_neg (fun hc => hnotmem hc), if_pos (List.mem_cons_self _ _)]
        rw [List.getElem?_set_self']
        cases hv : rows[j]? with
        | none => rfl
        | some v =>
            have hvd : rows.getD j [] = v := by
              rw [List.getD_eq_getElem?_getD, hv]
              rfl
            show some ((rows.getD j []).reverse) = some v.reverse
            rw [hvd]
      · rw [List.getElem?_set_ne (fun hc => hji hc.symm)]
        by_cases hjt : j ∈ t
        · rw [if_pos hjt, if_pos (List.mem_cons_of_mem _ hjt)]
        · rw [if_neg hjt, if_neg (by
            intro hc
            rcases List.mem_cons.mp hc with hc | hc
            · exact hji hc
            · exact hjt hc)]

theorem pyRange_nodup (a b s : ℕ) (hs : 0 < s) : (pyRange a b s).Nodup := by
  rw [pyRange]
  refine List.Nodup.map ?_ (List.nodup_range _)
  intro x y hxy
  have h2 : a + x * s = a + y * s := hxy
  exact Nat.eq_of_mul_eq_mul_right hs (Nat.add_left_cancel h2)

theorem mem_pyRange_odd (res j : ℕ) :
    j ∈ pyRange 1 res 2 ↔ j % 2 = 1 ∧ j < res := by
  rw [mem_pyRange_iff 1 res 2 j (by norm_num)]
  constructor
  · rintro ⟨k, rfl, hk⟩
    omega
  · rintro ⟨hodd, hlt⟩
    exact ⟨j / 2, by omega, by omega⟩

theorem flipOddRowsLoop_eq_spec (res : ℕ) (rows : List (List α))
    (h : rows.length = res) :
    flipOddRowsLoop res rows = flipOddSpec 0 rows := by
  apply List.ext_getElem?
  intro j
  rw [flipOddRowsLoop, foldl_set_reverse_getElem? _ (pyRange_nodup 1 res 2 (by norm_num)),
    getElem?_flipOddSpec]
  simp only [Nat.zero_add]
  by_cases hodd : j % 2 = 1
  · by_cases hlt : j < res
    · rw [if_pos ((mem_pyRange_odd res j).mpr ⟨hodd, hlt⟩), if_pos hodd]
    · rw [if_neg (fun hc => hlt ((mem_pyRange_odd res j).mp hc).2), if_pos hodd]
      have : rows[j]? = none := List.getElem?_eq_none (by omega)
      rw [this]
      rfl
  · rw [if_neg (fun hc => hodd ((mem_pyRange_odd res j).mp hc).1), if_neg hodd]

/-- Reversing odd-indexed rows preserves the row-length profile. -/
theorem map_length_flipOddSpec (i : ℕ) (ch : List (List α)) :
    (flipOddSpec i ch).map List.length = ch.map List.length := by
  induction ch generalizing i with
  | nil => rfl
  | cons r rs ih =>
      simp only [flipOddSpec, List.map_cons, ih]
      congr 1
      split_ifs
      · exact List.length_reverse r
      · rfl

/-- The modelled `np.array` shape check cannot tell a frame from its
odd-rows-flipped version. -/
theorem npArrayCheck_map_flip (frame : List (List (List ℝ))) :
    npArrayCheck (frame.map (flipOddSpec 0)) = npArrayCheck frame := by
  have hsh : (frame.map (flipOddSpec 0)).map (fun ch => ch.map List.length) =
      frame.map (fun ch => ch.map List.length) := by
    rw [List.map_map]
    exact List.map_congr_left (fun ch _ => map_length_flipOddSpec 0 ch)
  simp only [npArrayCheck]
  rw [hsh]

/-- C7: the frame decoder on the bidirectional pattern is exactly the sawtooth
decode with every odd-indexed row reversed and even-indexed rows untouched
(so on the sawtooth pattern no row is reversed); in particular a 1-channel
4-line frame whose line `i` would decode to `[i, i+1, i+2, i+3]` comes out
with row 1 equal to `[4, 3, 2, 1]` and row 3 equal to `[6, 5, 4, 3]`. -/
theorem c7_bidirectional_flips_odd_rows :
    (∀ (nchan sw d thr res : ℕ) (raw : List (List ℝ)),
      process_frame nchan sw d thr res .bidirectional raw =
        (process_frame nchan sw d thr res .sawtooth raw).map
          (fun frame => frame.map (flipOddSpec 0))) ∧
    process_frame 1 0 0 0 4 .bidirectional
        [[0, 1, 2, 3, 1, 2, 3, 4, 2, 3, 4, 5, 3, 4, 5, 6]] =
      .ok [[[(0 : ℝ), 1, 2, 3], [4, 3, 2, 1], [2, 3, 4, 5], [6, 5, 4, 3]]] := by
  constructor
  · intro nchan sw d thr res raw
    rw [process_frame, process_frame]
    by_cases h0 : raw.length ≠ 0 ∧ res = 0
    · rw [if_pos h0, if_pos h0]
      rfl
    · rw [if_neg h0, if_neg h0]
      by_cases h : nchan < raw.length
      · rw [if_pos h, if_pos h]
        rfl
      · rw [if_neg h, if_neg h]
        have hfb : raw.map (decodeChannel sw d thr res .bidirectional) ++
            List.replicate (nchan - raw.length) ([] : List (List ℝ)) =
            (raw.map (decodeChannel sw d thr res .sawtooth) ++
              List.replicate (nchan - raw.length) []).map (flipOddSpec 0) := by
          simp only [List.map_append, List.map_map, List.map_replicate]
          congr 1
          apply List.map_congr_left
          intro ch _
          show flipOddRowsLoop res
              ((arraySplit (ch.drop (sw + d)) res).map (cropLine thr res)) =
            flipOddSpec 0 ((arraySplit (ch.drop (sw + d)) res).map (cropLine thr res))
          exact flipOddRowsLoop_eq_spec res _ (by rw [List.length_map, length_arraySplit])
        simp only [hfb, npArrayCheck_map_flip]
        cases hc : npArrayCheck (raw.map (decodeChannel sw d thr res .sawtooth) ++
            List.replicate (nchan - raw.length) []) with
        | false => rfl
        | true => rfl
  · rfl

/-! Behaviour of the scan producer loop. -/

/-- Whether a queue item is a real frame (rather than the sentinel). -/
def isFrame (q : QItem) : Bool :=
  match q with
  | .frame _ => true
  | .sentinel => false

theorem scanLoop_fst_take (mv aq : ℕ → Bool) :
    ∀ (ps : List ℚ) (i : ℕ), ∃ n, n ≤ ps.length ∧ (scanLoop mv aq ps i).1 = ps.take n := by
  intro ps
  induction ps with
  | nil => intro i; exact ⟨0, by simp, rfl⟩
  | cons p t ih =>
      intro i
      cases hmv : mv i with
      | true =>
          cases haq : aq i with
          | true =>
              obtain ⟨n, hn, he⟩ := ih (i + 1)
              refine ⟨n + 1, by simpa using hn, ?_⟩
              simp [scanLoop, hmv, haq, he]
          | false => exact ⟨1, by simp, by simp [scanLoop, hmv, haq]⟩
      | false => exact ⟨0, by simp, by simp [scanLoop, hmv]⟩

theorem scanLoop_no_sentinel (mv aq : ℕ → Bool) :
    ∀ (ps : List ℚ) (i : ℕ), QItem.sentinel ∉ (scanLoop mv aq ps i).2 := by
  intro ps
  induction ps with
  | nil => intro i; simp [scanLoop]
  | cons p t ih =>
      intro i
      cases hmv : mv i with
      | true =>
          cases haq : aq i with
          | true => simpa [scanLoop, hmv, haq] using ih (i + 1)
          | false => simp [scanLoop, hmv, haq]
      | false => simp [scanLoop, hmv]

theorem scanLoop_snd_length (mv aq : ℕ → Bool) :
    ∀ (ps : List ℚ) (i : ℕ), (scanLoop mv aq ps i).2.length ≤ ps.length := by
  intro ps
  induction ps with
  | nil => intro i; simp [scanLoop]
  | cons p t ih =>
      intro i
      cases hmv : mv i with
      | true =>
          cases haq : aq i with
          | true =>
              have := ih (i + 1)
              simp only [scanLoop, hmv, haq, if_true, List.length_cons]
              simpa using this
          | false => simp [scanLoop, hmv, haq]
      | false => simp [scanLoop, hmv]

theorem scanLoop_all_frames (mv aq : ℕ → Bool) :
    ∀ (ps : List ℚ) (i : ℕ), ∀ q ∈ (scanLoop mv aq ps i).2, isFrame q = true := by
  intro ps
  induction ps with
  | nil => intro i; simp [scanLoop]
  | cons p t ih =>
      intro i
      cases hmv : mv i with
      | true =>
          cases haq : aq i with
          | true =>
              intro q hq
              simp only [scanLoop, hmv, haq, if_true, List.mem_cons] at hq
              rcases hq with rfl | hq
              · rfl
              · exact ih (i + 1) q hq
          | false => simp [scanLoop, hmv, haq]
      | false => simp [scanLoop, hmv]

theorem scanWavenumbers_eval : scanWavenumbers 0 3 1 = [0, 1, 2, 3] := by
  rw [scanWavenumbers]
  norm_num [npArange]
  rw [show ((4 : ℤ).toNat) = 4 from rfl, show List.range 4 = [0, 1, 2, 3] from rfl]
  norm_num

theorem scanDelayPositions_eval :
    scanDelayPositions 0 3 1 =
      [7237/100, 723711/10000, 723722/10000, 723733/10000] := by
  rw [scanDelayPositions, scanWavenumbers_eval]
  norm_num [polyval, wavenumber_to_delay]

/-- Counterexample to C8 as stated: with every move and acquisition
succeeding, the stage positions commanded by `acquire_scan` with
`start = 0, stop = 3, step = 1` are the calibrated delay positions
`np.polyval([0.0011, 72.37], w)`, not the wavenumbers `[0, 1, 2, 3]`
themselves. -/
theorem c8_counterexample :
    (acquire_scan 0 3 1 (fun _ => true) (fun _ => true)).1 ≠ [0, 1, 2, 3] := by
  intro h
  rw [acquire_scan] at h
  rw [scanDelayPositions_eval] at h
  norm_num [scanLoop] at h

/-- C8 (amended): `acquire_scan` with `start = 0, stop = 3, step = 1` visits
the wavenumbers `[0, 1, 2, 3]` in order (reversing the step sign when
`stop < start`), commanding the delay stage to the calibrated positions
`polyval([0.0011, 72.37], w)`; whatever moves or acquisitions fail, the
positions actually visited are a prefix of that list, at most 4 frames are
queued, and exactly one sentinel is queued, last; when the third move
fails, exactly two frames precede the sentinel. -/
theorem c8_scan_partial_termination :
    scanWavenumbers 0 3 1 = [0, 1, 2, 3] ∧
    (∀ mv aq : ℕ → Bool, ∃ n, n ≤ 4 ∧
      (acquire_scan 0 3 1 mv aq).1 = (scanDelayPositions 0 3 1).take n) ∧
    (∀ mv aq : ℕ → Bool,
      (acquire_scan 0 3 1 mv aq).2.countP isFrame ≤ 4 ∧
      (acquire_scan 0 3 1 mv aq).2.count QItem.sentinel = 1 ∧
      (acquire_scan 0 3 1 mv aq).2.getLast? = some QItem.sentinel) ∧
    acquire_scan 0 3 1 (fun i => decide (i ≠ 2)) (fun _ => true) =
      ([7237/100, 723711/10000], [QItem.frame 0, QItem.frame 1, QItem.sentinel]) := by
  refine ⟨scanWavenumbers_eval, ?_, ?_, ?_⟩
  · intro mv aq
    obtain ⟨n, hn, he⟩ := scanLoop_fst_take mv aq (scanDelayPositions 0 3 1) 0
    refine ⟨n, ?_, he⟩
    rw [scanDelayPositions_eval] at hn
    simpa using hn
  · intro mv aq
    refine ⟨?_, ?_, ?_⟩
    · show ((scanLoop mv aq (scanDelayPositions 0 3 1) 0).2 ++
        [QItem.sentinel]).countP isFrame ≤ 4
      rw [List.countP_append]
      have h1 : (scanLoop mv aq (scanDelayPositions 0 3 1) 0).2.countP isFrame ≤
          (scanLoop mv aq (scanDelayPositions 0 3 1) 0).2.length :=
        List.countP_le_length _
      have h2 := scanLoop_snd_length mv aq (scanDelayPositions 0 3 1) 0
      have hlen : (scanDelayPositions 0 3 1).length = 4 := by
        rw [scanDelayPositions_eval]
        rfl
      have h3 : List.countP isFrame [QItem.sentinel] = 0 := by rfl
      omega
    · show ((scanLoop mv aq (scanDelayPositions 0 3 1) 0).2 ++
        [QItem.sentinel]).count QItem.sentinel = 1
      rw [List.count_append]
      rw [List.count_eq_zero.mpr (scanLoop_no_sentinel mv aq _ 0)]
      rfl
    · show ((scanLoop mv aq (scanDelayPositions 0 3 1) 0).2 ++
        [QItem.sentinel]).getLast? = some QItem.sentinel
      rw [List.getLast?_concat]
  · rw [acquire_scan, scanDelayPositions_eval]
    norm_num [scanLoop]

/-! The mean of one pre-clip x-ramp line (C9). -/

/-- Arithmetic mean of a list of real samples. -/
noncomputable def listMean (l : List ℝ) : ℝ :=
  l.sum / l.length

theorem npRepeat_one (l : List α) : npRepeat l 1 = l := by
  induction l with
  | nil => rfl
  | cons a t ih =>
      simp only [npRepeat, List.map_cons, List.flatten_cons, List.replicate_one] at *
      rw [ih]
      rfl

theorem npTile_one (l : List α) : npTile l 1 = l := by
  simp [npTile]

theorem sawtooth_single_line (p : ℕ) : sawtooth p 1 1 = linspace p := by
  rw [sawtooth, npRepeat_one, npTile_one]

theorem sum_map_range (n : ℕ) (f : ℕ → ℚ) :
    ((List.range n).map f).sum = ∑ i in Finset.range n, f i := by
  induction n with
  | zero => simp
  | succ m ih => simp [List.range_succ, Finset.sum_range_succ, ih]

theorem sum_linspace {n : ℕ} (hn : 2 ≤ n) : (linspace n).sum = 0 := by
  rw [linspace, sum_map_range]
  have hgt : (1 : ℚ) < (n : ℚ) := by exact_mod_cast (by omega : 1 < n)
  have hne : (n : ℚ) - 1 ≠ 0 := sub_ne_zero.mpr (ne_of_gt hgt)
  rw [Finset.sum_add_distrib, Finset.sum_const, Finset.card_range]
  have hfac : ∀ i ∈ Finset.range n, 2 * (i : ℚ) / ((n : ℚ) - 1) =
      (i : ℚ) * (2 / ((n : ℚ) - 1)) := by
    intro i _
    ring
  rw [Finset.sum_congr rfl hfac, ← Finset.sum_mul]
  have hgauss : (∑ i in Finset.range n, (i : ℚ)) = (n : ℚ) * ((n : ℚ) - 1) / 2 := by
    have h2 := Finset.sum_range_id_mul_two n
    have h3 : ((∑ i in Finset.range n, i : ℕ) : ℚ) * 2 = (n : ℚ) * ((n : ℚ) - 1) := by
      rw [show ((∑ i in Finset.range n, i : ℕ) : ℚ) * 2 =
        (((∑ i in Finset.range n, i) * 2 : ℕ) : ℚ) by push_cast; ring, h2]
      push_cast [Nat.cast_sub (by omega : 1 ≤ n)]
      ring
    rw [Nat.cast_sum] at h3
    linarith
  rw [hgauss]
  field_simp

theorem sum_affine (A ox : ℝ) (l : List ℚ) :
    (l.map (fun v : ℚ => A * (v : ℝ) - ox)).sum = A * ((l.sum : ℚ) : ℝ) - l.length * ox := by
  induction l with
  | nil => simp
  | cons a t ih =>
      simp only [List.map_cons, List.sum_cons, List.length_cons, ih]
      push_cast
      ring

theorem totalAmplitude_one (A : ℝ) : totalAmplitude A 1 = A := by
  simp [totalAmplitude]

theorem totalOffset_one (A ox : ℝ) : totalOffset A ox 1 = ox := by
  simp [totalOffset]

theorem totalScan_nat_one (rx : ℕ) : totalScan rx 1 = rx := by
  simp [totalScan, pyInt]

/-- Counterexample to C9 as stated: for `amplitude = 3`, `offset_x = 1`,
`fill_fraction = 1`, `resolution_x = 2`, the pre-clip x-ramp of one line is
`[-4, 2]`, whose mean `-1` is not `offset_x = 1`. -/
theorem c9_counterexample :
    listMean (xScan 3 1 1 (totalScan 2 1).toNat) ≠ 1 := by
  have h2 : totalScan 2 1 = 2 := by norm_num [totalScan, pyInt]
  rw [h2, show ((2 : ℤ).toNat) = 2 from rfl]
  have hl : linspace 2 = [-1, 1] := by
    rw [linspace, show List.range 2 = [0, 1] from rfl]
    norm_num
  rw [xScan, sawtooth_single_line, hl, totalAmplitude_one, totalOffset_one]
  simp only [List.map_cons, List.map_nil]
  rw [listMean]
  push_cast
  norm_num

/-- C9 (amended): the visible portion of each pre-clip x-axis line is centered
on `-offset_x`, not `+offset_x` — the source subtracts `total_offset`, so for
`fill_fraction = 1` the mean of one line's pre-clip x samples equals
`-offset_x`, for every amplitude and offset (any `resolution_x ≥ 2`). -/
theorem c9_line_mean_neg_offset (A ox : ℝ) (rx : ℕ) (hrx : 2 ≤ rx) :
    listMean (xScan A ox 1 (totalScan rx 1).toNat) = -ox := by
  rw [totalScan_nat_one, Int.toNat_natCast]
  rw [xScan, sawtooth_single_line, totalAmplitude_one, totalOffset_one]
  rw [listMean, sum_affine, sum_linspace hrx, List.length_map, length_linspace]
  have hrx0 : (rx : ℝ) ≠ 0 := Nat.cast_ne_zero.mpr (by omega)
  push_cast
  field_simp
  ring

/-- Witness for C9 (amended) at amplitude 3, offset 1, resolution 2: the line
mean is `-1`. -/
theorem c9_witness :
    2 ≤ 2 ∧ listMean (xScan 3 1 1 (totalScan 2 1).toNat) = -1 :=
  ⟨by decide, c9_line_mean_neg_offset 3 1 2 (by decide)⟩

/-! Behaviour of `scale_min_max` / `convert_to_16_bit` at the array maximum
(C10). -/

theorem getD_map_of_lt (f : ℚ → β) (l : List ℚ) {i : ℕ} (hi : i < l.length)
    (d : ℚ) (d' : β) : (l.map f).getD i d' = f (l.getD i d) := by
  rw [List.getD_eq_getElem?_getD, List.getD_eq_getElem?_getD, List.getElem?_map,
    List.getElem?_eq_getElem hi]
  rfl

theorem length_scale_min_max (l : List ℚ) (mi ma : Option ℚ) :
    (scale_min_max l mi ma).length = l.length := by
  simp [scale_min_max]

/-- C10: for an array whose maximum exceeds its minimum, `scale_min_max` with
default bounds maps a maximal element to exactly `1`, and therefore
`convert_to_16_bit` sends it to `1 * 2^16 = 65536`, which the `uint16` cast
wraps modulo `2^16` to `0` (and `convert_to_8_bit` likewise wraps it to `0`):
the brightest pixel of a saved frame becomes the darkest value. -/
theorem c10_max_wraps_to_zero (l : List ℚ) (i : ℕ) (hi : i < l.length)
    (hlt : npMin l < npMax l) (hmax : l.getD i 0 = npMax l) :
    (scale_min_max l none none).getD i 0 = 1 ∧
    (convert_to_16_bit l none none).getD i 0 = 0 ∧
    (convert_to_8_bit l none none).getD i 0 = 0 := by
  have hne : npMax l - npMin l ≠ 0 := sub_ne_zero.mpr (ne_of_gt hlt)
  have hs : (scale_min_max l none none).getD i 0 = 1 := by
    rw [scale_min_max]
    simp only [pyFloatOr]
    rw [getD_map_of_lt _ _ hi 0, hmax, div_self hne]
    norm_num [npClipQ]
  refine ⟨hs, ?_, ?_⟩
  · rw [convert_to_16_bit,
      getD_map_of_lt _ _ (by rw [length_scale_min_max]; exact hi) 0, hs]
    norm_num [castUint16, pyInt]
  · rw [convert_to_8_bit,
      getD_map_of_lt _ _ (by rw [length_scale_min_max]; exact hi) 0, hs]
    norm_num [castUint8, pyInt]

theorem npMin_lt_npMax_01 : npMin [0, 1] < npMax [0, 1] := by
  norm_num [npMin, npMax]

theorem getD_one_01 : ([0, 1] : List ℚ).getD 1 0 = npMax [0, 1] := by
  norm_num [npMax]

/-- Witness for C10 on the array `[0, 1]`: its maximal element (index 1)
scales to `1` and both converters wrap it to `0`. -/
theorem c10_witness :
    1 < ([0, 1] : List ℚ).length ∧ npMin [0, 1] < npMax [0, 1] ∧
    (scale_min_max [0, 1] none none).getD 1 0 = 1 ∧
    (convert_to_16_bit [0, 1] none none).getD 1 0 = 0 ∧
    (convert_to_8_bit [0, 1] none none).getD 1 0 = 0 :=
  ⟨by decide, npMin_lt_npMax_01,
    (c10_max_wraps_to_zero [0, 1] 1 (by decide) npMin_lt_npMax_01 getD_one_01).1,
    (c10_max_wraps_to_zero [0, 1] 1 (by decide) npMin_lt_npMax_01 getD_one_01).2.1,
    (c10_max_wraps_to_zero [0, 1] 1 (by decide) npMin_lt_npMax_01 getD_one_01).2.2⟩

end HS
